import Mathlib

/-!
Verification development for the "what day is it today" Slack bot
(Google Apps Script / TypeScript, `src/main.ts`).

The source consists of two script versions in one file: an older
Wikipedia-only bot (`parseTodayInfo`, with an events / births / deaths split)
and the current multi-source bot (`parseWikipediaContent`, `getRandomItems`,
`sortByYear`, `fetchTodayInfo`, `formatSlackMessage`).

Shallow embedding conventions:
* strings are `List Char` (JS `string.length` counts UTF-16 units; all text
  handled here is in the Basic Multilingual Plane, where the two coincide);
* every JS regex used by the source is modelled as an explicit character
  scanner that follows the exact backtracking order of the JS regex engine
  (greedy quantifiers try longest first, lazy ones shortest first, optional
  groups try the present branch first, alternatives left to right);
* `Math.random`-driven choices are an explicit `picks : Nat → Nat` oracle;
* network effects are explicit `Option`-valued environment fields: `none`
  models a fetch that throws (always caught by the source where modelled so).
-/

namespace WhatDay

/-- JS `\s`, restricted to the ASCII whitespace actually occurring in the data. -/
def isWsC (c : Char) : Bool :=
  c == ' ' || c == '\t' || c == '\n' || c == '\r'

/-- JS `.` (matches everything except line terminators). -/
def isDotC (c : Char) : Bool :=
  !(c == '\n' || c == '\r')

/-- Model of `parseInt` on a digit string (exact; the years involved are far below 2^53). -/
def natOfDigits (ds : List Char) : Nat :=
  ds.foldl (fun n c => 10 * n + (c.toNat - '0'.toNat)) 0

/-- Model of `startsWithL pat l` : `l` begins with the literal `pat`. -/
def startsWithL : List Char → List Char → Bool
  | [], _ => true
  | _ :: _, [] => false
  | p :: ps, c :: cs => p == c && startsWithL ps cs

/-- JS `String.prototype.includes`: `pat` occurs as a contiguous substring. -/
def containsSeq (pat : List Char) : List Char → Bool
  | [] => startsWithL pat []
  | l@(_ :: t) => startsWithL pat l || containsSeq pat t

/-! Part: The Text Cleaner (`cleanWikiText`, main.ts 436-445; `cleanText`, main.ts 99-108)

Each `.replace(/re/g, …)` is a left-to-right scan: at each position the
pattern is tried; on a match the replacement is emitted and scanning resumes
after the matched span, otherwise one character is copied.  Each matcher
below returns `(replacement, rest-after-match)`.  The quantifiers inside
these patterns are on character classes excluding their closing delimiter,
so backtracking cannot change the match: the maximal run is the only
candidate, as noted per matcher. -/

/-- Pattern `\[\[([^\]|]+)\|([^\]]+)\]\]` → `$2`.  Both runs are maximal: shrinking
`[^\]|]+` puts a non-`|`, non-`]` character where `|` is required, and
shrinking `[^\]]+` puts a non-`]` character where `]` is required. -/
def matchPiped : List Char → Option (List Char × List Char)
  | '[' :: '[' :: r =>
    let t1 := r.takeWhile fun c => !(c == ']' || c == '|')
    match r.dropWhile fun c => !(c == ']' || c == '|') with
    | '|' :: r2 =>
      if t1.isEmpty then none else
      let t2 := r2.takeWhile fun c => !(c == ']')
      match r2.dropWhile fun c => !(c == ']') with
      | ']' :: ']' :: r3 => if t2.isEmpty then none else some (t2, r3)
      | _ => none
    | _ => none
  | _ => none

/-- Pattern `\[\[([^\]]+)\]\]` → `$1`. -/
def matchBare : List Char → Option (List Char × List Char)
  | '[' :: '[' :: r =>
    let t := r.takeWhile fun c => !(c == ']')
    if t.isEmpty then none else
    match r.dropWhile fun c => !(c == ']') with
    | ']' :: ']' :: r2 => some (t, r2)
    | _ => none
  | _ => none

/-- Pattern `\{\{[^}]+\}\}` → removed. -/
def matchTemplate : List Char → Option (List Char × List Char)
  | '\x7b' :: '\x7b' :: r =>
    let t := r.takeWhile fun c => !(c == '\x7d')
    if t.isEmpty then none else
    match r.dropWhile fun c => !(c == '\x7d') with
    | '\x7d' :: '\x7d' :: r2 => some ([], r2)
    | _ => none
  | _ => none

/-- Pattern `<[^>]+>` → removed. -/
def matchTag : List Char → Option (List Char × List Char)
  | '<' :: r =>
    let t := r.takeWhile fun c => !(c == '>')
    if t.isEmpty then none else
    match r.dropWhile fun c => !(c == '>') with
    | '>' :: r2 => some ([], r2)
    | _ => none
  | _ => none

/-- Pattern `\([^)]*\*[^)]*\)` → removed.  The span between `(` and the first `)` is
fixed (the classes cannot cross `)`); backtracking inside it merely searches
for a `*`, so the pattern matches exactly when that span contains one. -/
def matchParenStar : List Char → Option (List Char × List Char)
  | '(' :: r =>
    let t := r.takeWhile fun c => !(c == ')')
    match r.dropWhile fun c => !(c == ')') with
    | ')' :: r2 => if t.contains '*' then some ([], r2) else none
    | _ => none
  | _ => none

/-- One global-replace pass.  `fuel` is instantiated with the input length:
every matcher above consumes at least one character, so the fuel never runs
out before the input does and the scan is exact. -/
def scanRepl (m : List Char → Option (List Char × List Char)) :
    Nat → List Char → List Char
  | _, [] => []
  | 0, l => l
  | fuel + 1, c :: cs =>
    match m (c :: cs) with
    | some (rep, rest) => rep ++ scanRepl m fuel rest
    | none => c :: scanRepl m fuel cs

/-- JS `str.replace(/re/g, …)` for the matchers above. -/
def jsReplace (m : List Char → Option (List Char × List Char)) (l : List Char) :
    List Char :=
  scanRepl m l.length l

def isWsDash (c : Char) : Bool := isWsC c || c == '-'

/-- Pattern `^[\s-]+|[\s-]+$` → removed: strip the maximal leading and trailing runs. -/
def stripEdges (l : List Char) : List Char :=
  ((l.dropWhile isWsDash).reverse.dropWhile isWsDash).reverse

/-- JS `String.prototype.trim`. -/
def jsTrim (l : List Char) : List Char :=
  ((l.dropWhile isWsC).reverse.dropWhile isWsC).reverse

/-- Model of `cleanWikiText` (main.ts 436-445): the six replace stages then `trim`. -/
def cleanWikiText (l : List Char) : List Char :=
  jsTrim (stripEdges (jsReplace matchParenStar (jsReplace matchTag
    (jsReplace matchTemplate (jsReplace matchBare (jsReplace matchPiped l))))))

/-- Model of `cleanText` inside `parseTodayInfo` (main.ts 99-108) is textually identical
to `cleanWikiText`. -/
def cleanText (l : List Char) : List Char := cleanWikiText l

/-- A residual `<...>` tag: `<`, a nonempty run without `>`, then `>`. -/
def hasTag (l : List Char) : Prop :=
  ∃ a t b, l = a ++ '<' :: (t ++ '>' :: b) ∧ t ≠ [] ∧ '>' ∉ t

/-- Residual wiki/HTML markup in the sense of the spec: `[[`, `]]`, `{{`,
`}}`, or a `<...>` tag. -/
def containsMarkup (l : List Char) : Prop :=
  containsSeq ['[', '['] l = true ∨ containsSeq [']', ']'] l = true ∨
  containsSeq ['\x7b', '\x7b'] l = true ∨ containsSeq ['\x7d', '\x7d'] l = true ∨
  hasTag l

/-- Absence of the five markup-significant characters. -/
def noMarkupChars (l : List Char) : Prop :=
  ∀ c ∈ l, c ≠ '[' ∧ c ≠ ']' ∧ c ≠ '\x7b' ∧ c ≠ '\x7d' ∧ c ≠ '<'

/-- A matcher is conservative when both its replacement and its rest are made
of characters of its input. -/
def Conservative (m : List Char → Option (List Char × List Char)) : Prop :=
  ∀ l rep rest, m l = some (rep, rest) →
    (∀ c ∈ rep, c ∈ l) ∧ (∀ c ∈ rest, c ∈ l)

/-! Part: `sortByYear` (main.ts 516-538)

`items.sort((a, b) => extractYear(a) - extractYear(b))` is an ascending
stable sort (ECMAScript 2019 requires `Array.prototype.sort` stability);
a stable ascending sort has a unique result, modelled by insertion sort. -/

/-- Shared digits-then-optional-`年`-then-`:` suffix of both year patterns in
`extractYear`.  `\d+` is effectively maximal here: shrinking it puts a digit
where `年?:` must match, which fails. -/
def parseDigitsYearColon (l : List Char) : Option Nat :=
  let ds := l.takeWhile Char.isDigit
  if ds.isEmpty then none else
  match l.dropWhile Char.isDigit with
  | '年' :: ':' :: _ => some (natOfDigits ds)
  | ':' :: _ => some (natOfDigits ds)
  | _ => none

/-- Pattern `^紀元前(\d+)年?:` (matched first inside `extractYear`). -/
def bcParse (l : List Char) : Option Nat :=
  match l with
  | '紀' :: '元' :: '前' :: r => parseDigitsYearColon r
  | _ => none

/-- Pattern `^(\d+)年?:` (the second pattern inside `extractYear`). -/
def adParse (l : List Char) : Option Nat := parseDigitsYearColon l

/-- Model of `extractYear` inside `sortByYear` (main.ts 519-531). -/
def extractYear (l : List Char) : Int :=
  match bcParse l with
  | some n => -(n : Int)
  | none =>
    match adParse l with
    | some n => (n : Int)
    | none => 0

def extractYearS (s : String) : Int := extractYear s.data

/-- Model of `sortByYear` (main.ts 516-538). -/
def sortByYear (items : List String) : List String :=
  List.insertionSort (fun a b => extractYearS a ≤ extractYearS b) items

/-! Part: Line matchers for the Wiki Content Parser

The per-line regexes of `parseWikipediaContent` / `parseTodayInfo`
(main.ts 116, 138, 160, 453, 475) need genuine backtracking.  We model a
JS regex as a search over candidate continuations in the engine's order:
greedy quantifiers try the longest split first, lazy ones the shortest,
optional groups try the present branch first.  `firstSome` returns the
first candidate on which the continuation succeeds (earlier choice points
are outer, so they vary slowest, exactly like the engine's stack). -/

def firstSome {α β : Type} : List α → (α → Option β) → Option β
  | [], _ => none
  | x :: xs, f =>
    match f x with
    | some b => some b
    | none => firstSome xs f

/-- Greedy `cls*`: suffixes after dropping `run, run-1, …, 0` characters. -/
def greedyDrops (p : Char → Bool) (l : List Char) : List (List Char) :=
  (List.range ((l.takeWhile p).length + 1)).reverse.map fun k => l.drop k

/-- Greedy `cls+` with capture: `(take k, drop k)` for `k = run, …, 1`. -/
def greedyTakes1 (p : Char → Bool) (l : List Char) : List (List Char × List Char) :=
  (List.range' 1 (l.takeWhile p).length).reverse.map fun k => (l.take k, l.drop k)

/-- Lazy `(cls+?)` with capture: `(take k, drop k)` for `k = 1, …, run`. -/
def lazyTakes (p : Char → Bool) (l : List Char) : List (List Char × List Char) :=
  (List.range' 1 (l.takeWhile p).length).map fun k => (l.take k, l.drop k)

/-- Pattern `(?:\]\])?` (greedy: present branch first). -/
def rbConts (s : List Char) : List (List Char) :=
  if startsWithL [']', ']'] s then [s.drop 2, s] else [s]

/-- Pattern `-?` (greedy: present branch first). -/
def dashConts (s : List Char) : List (List Char) :=
  match s with
  | '-' :: s4 => [s4, '-' :: s4]
  | _ => [s]

/-- Pattern `(\d+年?)` prefixed by an already-matched literal `pre`: digit splits
longest first, each with the `年`-present variant before the absent one. -/
def yearTokenCands (pre : List Char) (r : List Char) :
    List (List Char × List Char) :=
  (greedyTakes1 Char.isDigit r).flatMap fun dgs =>
    match dgs.2 with
    | '年' :: s1 => [(pre ++ dgs.1 ++ ['年'], s1), (pre ++ dgs.1, dgs.2)]
    | _ => [(pre ++ dgs.1, dgs.2)]

/-- Group 1 of the births/deaths line regex: `(\d+年?)`. -/
def personYearCands (r : List Char) : List (List Char × List Char) :=
  yearTokenCands [] r

/-- Group 1 of the events line regex: `(紀元前?\d+年?|\d+年?)` — the
`紀元(前?)` alternative first (`前`-present before absent), then plain. -/
def eventYearCands (r : List Char) : List (List Char × List Char) :=
  (match r with
   | '紀' :: '元' :: r3 =>
     (match r3 with
      | '前' :: r4 =>
        yearTokenCands ['紀', '元', '前'] r4 ++ yearTokenCands ['紀', '元'] ('前' :: r4)
      | _ => yearTokenCands ['紀', '元'] r3)
   | _ => []) ++ yearTokenCands [] r

/-- Terminator `(?:\(\+|（\+|$)` of the births line (with `+` replaced by
`*` for the deaths line): met when the rest starts with `(​+`/`（+` or is
the end of the line (JS `$` without `m` is end of string only). -/
def personTermAt (plus : Char) (t : List Char) : Bool :=
  startsWithL ['(', plus] t || startsWithL ['（', plus] t || t.isEmpty

/-- Terminator `(?:\.\s*$|$)` of the events line. -/
def eventTermAt (t : List Char) : Bool :=
  t.isEmpty ||
    (match t with
     | '.' :: r => (r.dropWhile isWsC).isEmpty
     | _ => false)

/-- Pattern `(?:\]\])?\s*-?\s*(.+?)(?:\.\s*$|$)` — the part of the events line regex
after group 1, in engine order. -/
def eventAfterYear (s1 : List Char) : Option (List Char) :=
  firstSome (rbConts s1) fun s2 =>
    firstSome (greedyDrops isWsC s2) fun s3 =>
      firstSome (dashConts s3) fun s4 =>
        firstSome (greedyDrops isWsC s4) fun s5 =>
          firstSome (lazyTakes isDotC s5) fun bs =>
            if eventTermAt bs.2 then some bs.1 else none

/-- Pattern `(?:\]\])?\s*-?\s*(.+?)(?:、(.+?))?(?:\(±|（±|$)` — the part of the
births/deaths line regex after group 1, in engine order: for each lazy body
length, the `、(.+?)`-present branch is explored fully before the absent
branch. -/
def personAfterYear (plus : Char) (s1 : List Char) :
    Option (List Char × Option (List Char)) :=
  firstSome (rbConts s1) fun s2 =>
    firstSome (greedyDrops isWsC s2) fun s3 =>
      firstSome (dashConts s3) fun s4 =>
        firstSome (greedyDrops isWsC s4) fun s5 =>
          firstSome (lazyTakes isDotC s5) fun bs =>
            match
              (match bs.2 with
               | '、' :: s7 =>
                 firstSome (lazyTakes isDotC s7) fun os =>
                   if personTermAt plus os.2 then some (bs.1, some os.1) else none
               | _ => none) with
            | some v => some v
            | none => if personTermAt plus bs.2 then some (bs.1, none) else none

/-- The events line regex
`^\*\s*(?:\[\[)?(紀元前?\d+年?|\d+年?)(?:\]\])?\s*-?\s*(.+?)(?:\.\s*$|$)`
(main.ts 116 and 453).  The leading `\s*` cannot backtrack usefully (a
shorter run leaves a whitespace character where `\[\[` or a digit is
required), and if `\[\[` is present but no digit follows it, the skip
branch fails on `[` as well. -/
def matchEventLine (l : List Char) : Option (List Char × List Char) :=
  match l with
  | '*' :: r0 =>
    let r1 := r0.dropWhile isWsC
    let r2 := if startsWithL ['[', '['] r1 then r1.drop 2 else r1
    firstSome (eventYearCands r2) fun ys =>
      (eventAfterYear ys.2).map fun b => (ys.1, b)
  | _ => none

/-- The births/deaths line regex
`^\*\s*(?:\[\[)?(\d+年?)(?:\]\])?\s*-?\s*(.+?)(?:、(.+?))?(?:\(±|（±|$)`
(main.ts 138, 160, 475) with `plus = '+'` for births and `'*'` for deaths. -/
def matchPersonLine (plus : Char) (l : List Char) :
    Option (List Char × List Char × Option (List Char)) :=
  match l with
  | '*' :: r0 =>
    let r1 := r0.dropWhile isWsC
    let r2 := if startsWithL ['[', '['] r1 then r1.drop 2 else r1
    firstSome (personYearCands r2) fun ys =>
      (personAfterYear plus ys.2).map fun bo => (ys.1, bo.1, bo.2)
  | _ => none

/-! Part: Per-line record construction and filters -/

/-- Body of the events loop (main.ts 454-465 and 117-128): on a line match,
clean the body and push `"{year}: {event}"` unless a reject condition holds.
(`match[2]` is the nonempty lazy group, so its extra truthiness test never
fails on a successful match.) -/
def processEventLine (line : List Char) : Option (List Char) :=
  match matchEventLine line with
  | none => none
  | some yr =>
    let e := cleanWikiText yr.2
    if e.isEmpty then none
    else if containsSeq ("Image:".data) e then none
    else if containsSeq ("File:".data) e then none
    else if containsSeq ("multiple image".data) e then none
    else if containsSeq ("\x7b\x7b".data) e then none
    else if 10 < e.length ∧ e.length < 150 then some (yr.1 ++ (": ".data) ++ e)
    else none

/-- Body of the births/deaths loops (main.ts 476-485, 139-148, 161-169). -/
def processPersonLine (plus : Char) (line : List Char) : Option (List Char) :=
  match matchPersonLine plus line with
  | none => none
  | some ybo =>
    let person := cleanWikiText ybo.2.1
    let occupation := match ybo.2.2 with
      | some o => cleanWikiText o
      | none => []
    if person.isEmpty then none
    else if 1 < person.length ∧ person.length < 50 then
      some (ybo.1 ++ (": ".data) ++
        (if occupation.isEmpty then person
         else person ++ ['（'] ++ occupation ++ ['）']))
    else none

/-! Part: Section extraction

The section regexes `== できごと ==([\s\S]*?)(?=== [^=]|$)` etc. capture,
from just after the first occurrence of the heading literal, the shortest
span up to the first position where the two-equals lookahead `== [^=]`
holds (or end of input). -/

/-- JS `split('\n')`. -/
def splitNl : List Char → List (List Char)
  | [] => [[]]
  | '\n' :: t => [] :: splitNl t
  | c :: t =>
    match splitNl t with
    | h :: r => (c :: h) :: r
    | [] => [[c]]

/-- Match a literal at the current position, returning the rest. -/
def matchLit (pat : List Char) (l : List Char) : Option (List Char) :=
  if startsWithL pat l then some (l.drop pat.length) else none

/-- Leftmost match: try `headPat` at each position left to right. -/
def findAfter (headPat : List Char → Option (List Char)) :
    List Char → Option (List Char)
  | [] => none
  | l@(_ :: t) =>
    match headPat l with
    | some r => some r
    | none => findAfter headPat t

/-- The lookahead `== [^=]`: two equals, a space, then a non-equals. -/
def stopTopHeading (l : List Char) : Bool :=
  match l with
  | '=' :: '=' :: ' ' :: c :: _ => !(c == '=')
  | _ => false

/-- Shortest span up to `stopTopHeading` or end of input (the lazy
`[\s\S]*?` before the lookahead alternation with `$`). -/
def takeUntilTop : List Char → List Char
  | [] => []
  | c :: t => if stopTopHeading (c :: t) then [] else c :: takeUntilTop t

/-- Shortest span up to a literal (for `([\s\S]*?)(?:=== |$)`, whose
non-capturing terminator consumes but contributes nothing used). -/
def takeUntilLit (stopPat : List Char) : List Char → List Char
  | [] => []
  | c :: t => if startsWithL stopPat (c :: t) then [] else c :: takeUntilLit stopPat t

/-- Pattern `== 誕生(?:日)? ==` — the `日`-present branch first. -/
def headBirths (l : List Char) : Option (List Char) :=
  match matchLit ("== 誕生".data) l with
  | none => none
  | some r =>
    match matchLit ("日 ==".data) r with
    | some r2 => some r2
    | none => matchLit (" ==".data) r

/-- Content captured by `== X ==([\s\S]*?)(?=== [^=]|$)` for a heading
matcher. -/
def sectionContent (headPat : List Char → Option (List Char))
    (content : List Char) : Option (List Char) :=
  (findAfter headPat content).map takeUntilTop

/-- Pattern `=== 人物 ===([\s\S]*?)(?:=== |$)` applied to the deaths capture
(main.ts 156). -/
def personContent (d : List Char) : Option (List Char) :=
  (findAfter (matchLit ("=== 人物 ===".data)) d).map (takeUntilLit ("=== ".data))

/-- Model of `parseWikipediaContent` (main.ts 432-493): `(historical, births)`.
Its internal `try` never fires (the body is exception-free), so it is not
modelled. -/
def parseWikipediaContent (content : List Char) :
    List (List Char) × List (List Char) :=
  let historical :=
    match sectionContent (matchLit ("== できごと ==".data)) content with
    | none => []
    | some sec => (splitNl sec).filterMap processEventLine
  let births :=
    match sectionContent headBirths content with
    | none => []
    | some sec => (splitNl sec).filterMap (processPersonLine '+')
  (historical, births)

/-- The deaths extraction of `parseTodayInfo` (main.ts 153-172). -/
def parseDeaths (content : List Char) : List (List Char) :=
  match sectionContent (matchLit ("== 忌日 ==".data)) content with
  | none => []
  | some sec =>
    let lines :=
      match personContent sec with
      | some pc => splitNl pc
      | none => splitNl sec
    lines.filterMap (processPersonLine '*')

/-- Model of `parseTodayInfo` (main.ts 90-176) of the older script version. -/
structure TodayInfoV1 where
  date : String
  events : List String
  births : List String
  deaths : List String
deriving DecidableEq

def parseTodayInfo (date : String) (content : List Char) : TodayInfoV1 :=
  let w := parseWikipediaContent content
  ⟨date, w.1.map fun l => String.mk l, w.2.map fun l => String.mk l,
    (parseDeaths content).map fun l => String.mk l⟩

/-! Part: The External HTML Parser (`parsePhpTodayInfo`, main.ts 587-628) -/

/-- First occurrence split: `some (before, after)` around the first match of
the literal `pat`. -/
def splitAtLit (pat : List Char) : List Char → Option (List Char × List Char)
  | [] => if pat.isEmpty then some ([], []) else none
  | l@(c :: t) =>
    if startsWithL pat l then some ([], l.drop pat.length)
    else
      match splitAtLit pat t with
      | some pr => some (c :: pr.1, pr.2)
      | none => none

/-- Pattern `<!--[\s\S]*?-->` → removed (lazy: up to the first `-->`). -/
def matchComment : List Char → Option (List Char × List Char)
  | '<' :: '!' :: '-' :: '-' :: r =>
    match splitAtLit ("-->".data) r with
    | some pr => some ([], pr.2)
    | none => none
  | _ => none

/-- Pattern `<!--[\s\S]*` → removed (an unterminated comment opener eats the rest). -/
def removeUnterminatedComment (l : List Char) : List Char :=
  match splitAtLit ("<!--".data) l with
  | some pr => pr.1
  | none => l

/-- JS `replace(/lit/g, rep)` for a literal pattern. -/
def replaceAllLit (pat rep : List Char) (l : List Char) : List Char :=
  jsReplace (fun s => (matchLit pat s).map fun r => (rep, r)) l

/-- The `cleanText` helper inside `parsePhpTodayInfo` (main.ts 591-603):
comment, tag, and entity stripping, then `trim`.  (Named `cleanTextPhp` here
because the older script has a different function of the same name.) -/
def cleanTextPhp (l : List Char) : List Char :=
  jsTrim (replaceAllLit ("&quot;".data) ("\"".data)
    (replaceAllLit ("&gt;".data) (">".data)
      (replaceAllLit ("&lt;".data) ("<".data)
        (replaceAllLit ("&amp;".data) ("&".data)
          (replaceAllLit ("&nbsp;".data) (" ".data)
            (jsReplace matchTag
              (replaceAllLit ("-->".data) []
                (removeUnterminatedComment (jsReplace matchComment l)))))))))

/-- The lookahead `(?=歴史上の出来事|今日の誕生日|$)`. -/
def phpStop (l : List Char) : Bool :=
  startsWithL ("歴史上の出来事".data) l || startsWithL ("今日の誕生日".data) l

def takeUntilPhpStop : List Char → List Char
  | [] => []
  | c :: t => if phpStop (c :: t) then [] else c :: takeUntilPhpStop t

/-- Pattern `記念日・行事・お祭り[\s\S]*?●([\s\S]*?)(?=歴史上の出来事|今日の誕生日|$)`:
from the first label occurrence, skip lazily to the first `●`, then capture
lazily up to the stop lookahead.  (If no `●` follows the first label
occurrence, none follows a later one either, so no retry is needed.) -/
def findPhpEventsSpan (html : List Char) : Option (List Char) :=
  match findAfter (matchLit ("記念日・行事・お祭り".data)) html with
  | none => none
  | some r =>
    match splitAtLit ['●'] r with
    | some pr => some (takeUntilPhpStop pr.2)
    | none => none

/-- JS `split(sep)` for a single-character separator. -/
def splitOn (sep : Char) : List Char → List (List Char)
  | [] => [[]]
  | c :: t =>
    if c == sep then [] :: splitOn sep t
    else
      match splitOn sep t with
      | h :: r => (c :: h) :: r
      | [] => [[c]]

/-- Model of `item.replace(/^●\s*/, '')`. -/
def stripBullet (it : List Char) : List Char :=
  match it with
  | '●' :: r => r.dropWhile isWsC
  | _ => it

/-- Model of `parsePhpTodayInfo` (main.ts 587-628); its `date` argument is unused for
extraction.  The internal `try` never fires (the body is exception-free). -/
def parsePhpTodayInfo (html : List Char) : List (List Char) :=
  match findPhpEventsSpan html with
  | none => []
  | some span =>
    let eventsText := cleanTextPhp span
    let items := (splitOn ',' eventsText).filter fun it => !(jsTrim it).isEmpty
    items.filterMap fun it =>
      let it2 := jsTrim (stripBullet it)
      if 0 < it2.length ∧ it2.length < 100 then some it2 else none

/-! Part: `getRandomItems` (main.ts 498-510)

`Math.floor(Math.random() * (i + 1))` at loop index `i` is modelled by an
oracle `picks : Nat → Nat`; `Math.random ∈ [0, 1)` guarantees `picks i ≤ i`,
which theorems take as a hypothesis. -/

/-- Pattern `[shuffled[i], shuffled[j]] = [shuffled[j], shuffled[i]]` (identity when
an index is out of range, which valid picks never produce). -/
def swapL {α : Type} (a : List α) (i j : Nat) : List α :=
  match a[i]?, a[j]? with
  | some x, some y => (a.set i y).set j x
  | _, _ => a

/-- The Fisher-Yates loop `for (let i = len - 1; i > 0; i--)`. -/
def fyLoop {α : Type} (picks : Nat → Nat) : Nat → List α → List α
  | 0, a => a
  | i + 1, a => fyLoop picks i (swapL a (i + 1) (picks (i + 1)))

/-- The shuffle of `getRandomItems` applied to the copied array. -/
def shuffleJS {α : Type} (picks : Nat → Nat) (a : List α) : List α :=
  fyLoop picks (a.length - 1) a

/-- Model of `getRandomItems` (main.ts 498-510). -/
def getRandomItems {α : Type} (picks : Nat → Nat) (array : List α)
    (count : Nat) : List α :=
  if array.length ≤ count then array
  else (shuffleJS picks array).take count

/-! Part: The Aggregator (`fetchTodayInfo`, main.ts 543-582) and Presenter -/

structure TodayInfo where
  date : String
  events : List String
  historical : List String
  births : List String
  birthFlower : Option String
deriving DecidableEq

def sortByYearL (items : List String) : List String := sortByYear items

/-- One run's external world: `none` in `phpHtml` models the primary
`UrlFetchApp.fetch` throwing; `wikiContent = none` collapses the three
non-throwing failure paths of `fetchWikipediaInfo` (fetch error, missing
page, missing content), all of which yield empty lists; `flowerField` is
the `flower` field of the birth-flower JSON (`none`: absent or fetch threw,
both caught inside `fetchBirthFlower`). -/
structure FetchEnv where
  displayDate : String
  phpHtml : Option String
  wikiContent : Option String
  flowerField : Option String
  picksH : Nat → Nat
  picksB : Nat → Nat

/-- Model of `fetchBirthFlower` (main.ts 364-384): `data.flower` is returned only when
truthy (nonempty); every failure is caught and yields `null`. -/
def fetchBirthFlower (env : FetchEnv) : Option String :=
  match env.flowerField with
  | some f => if 0 < f.length then some f else none
  | none => none

/-- Model of `fetchWikipediaInfo` (main.ts 389-427): all failures are caught and give
empty lists. -/
def fetchWikipediaInfo (env : FetchEnv) : List String × List String :=
  match env.wikiContent with
  | none => ([], [])
  | some c =>
    let w := parseWikipediaContent c.data
    (w.1.map fun l => String.mk l, w.2.map fun l => String.mk l)

/-- Model of `fetchTodayInfo` (main.ts 543-582): the whole body is inside one `try`;
only the php fetch itself can throw (the helpers catch their own errors), so
`phpHtml = none` is the only abort path and yields `null`. -/
def fetchTodayInfo (env : FetchEnv) : Option TodayInfo :=
  match env.phpHtml with
  | none => none
  | some html =>
    let phpEvents := (parsePhpTodayInfo html.data).map fun l => String.mk l
    let wiki := fetchWikipediaInfo env
    let birthFlower := fetchBirthFlower env
    let randomHistorical := getRandomItems env.picksH wiki.1 5
    let randomBirths := getRandomItems env.picksB wiki.2 5
    some ⟨env.displayDate, phpEvents, sortByYear randomHistorical,
      sortByYear randomBirths, birthFlower⟩

/-- The `message += \u{2022} ${x}\n` loops of `formatSlackMessage`. -/
def bulletLines (xs : List String) : String :=
  xs.foldl (fun m x => m ++ "• " ++ x ++ "\n") ""

/-- Model of `formatSlackMessage` (main.ts 633-674). -/
def formatSlackMessage (info : TodayInfo) : String :=
  let m0 := "📅 *今日は何の日？* - " ++ info.date ++ "\n\n"
  let m1 :=
    if 0 < info.events.length then
      m0 ++ "🎉 *記念日・行事・お祭り*\n" ++ bulletLines (info.events.take 5) ++ "\n"
    else m0
  let m2 :=
    if 0 < info.historical.length then
      m1 ++ "🏛️ *歴史上の出来事*\n" ++ bulletLines (info.historical.take 5) ++ "\n"
    else m1
  let m3 :=
    if 0 < info.births.length then
      m2 ++ "🎂 *今日の誕生日*\n" ++ bulletLines (info.births.take 5) ++ "\n"
    else m2
  let m4 :=
    match info.birthFlower with
    | some f =>
      if 0 < f.length then m3 ++ "🌸 *誕生花*\n" ++ "• " ++ f ++ "\n\n" else m3
    | none => m3
  m4 ++ "\n_Powered by php.co.jp, Wikipedia & whatistoday.cyou_"

/-- The fallback notice posted by `main`'s catch block (main.ts 737). -/
def errorNotice (e : String) : String :=
  "❗ 今日は何の日Botでエラーが発生しました: " ++ e

/-- Messaging-sink behaviour for one run. -/
structure SinkEnv where
  webhookSet : Bool
  accepts200 : Bool
  errText : String

/-- The payloads `main` (main.ts 715-742) delivers to the webhook, in order:
a `null` digest returns before any post; an unconfigured webhook throws
before sending (and the fallback post throws identically); a non-200
response means the payload reached the sink, after which the catch block
posts the error notice. -/
def mainSink (env : FetchEnv) (s : SinkEnv) : List String :=
  match fetchTodayInfo env with
  | none => []
  | some info =>
    let msg := formatSlackMessage info
    if !s.webhookSet then []
    else if s.accepts200 then [msg]
    else [msg, errorNotice s.errText]

/-- A section of the rendered message: empty list → nothing (no header),
otherwise header plus at most the first five entries as bullets. -/
def renderSection (header : String) (xs : List String) : String :=
  if 0 < xs.length then header ++ bulletLines (xs.take 5) ++ "\n" else ""

def renderFlower : Option String → String
  | some f => if 0 < f.length then "🌸 *誕生花*\n" ++ "• " ++ f ++ "\n\n" else ""
  | none => ""

/-! Part: C3: `getRandomItems`, and unbiasedness of its Fisher-Yates shuffle

The loop at index `i` never touches positions above `i` again, so the whole
loop factors as: swap the last active position, then shuffle the prefix
(`shuffleRec` below, on an explicit list of choices).  Unbiasedness is the
statement that on a duplicate-free list, every permutation of it is produced
by exactly one valid choice vector — uniform choices therefore induce the
uniform distribution on permutations. -/

/-- The recursive form of the Fisher-Yates loop: use one choice to fill the
last position, then recurse on the prefix. -/
def shuffleRec {α : Type} : List Nat → List α → List α
  | [], a => a
  | j :: js, a =>
    let i := a.length - 1
    let b := swapL a i j
    shuffleRec js (b.take i) ++ b.drop i

/-- The choices `picks (n), …, picks 1` consumed by `fyLoop picks n`. -/
def choiceList (picks : Nat → Nat) : Nat → List Nat
  | 0 => []
  | i + 1 => picks (i + 1) :: choiceList picks i

/-- Validity of a choice vector for a list of length `n`: one choice per
loop iteration (`n - 1` of them), each `≤` its loop index — exactly the
values `Math.floor(Math.random() * (i + 1))` can take. -/
def ChoicesFor : List Nat → Nat → Prop
  | [], n => n ≤ 1
  | j :: js, n => 2 ≤ n ∧ j + 1 ≤ n ∧ ChoicesFor js (n - 1)

/-! Part: Theorems.  Everything below is proof; no further definitions. -/

lemma mem_of_mem_takeWhile {p : Char → Bool} {l : List Char} {c : Char}
    (h : c ∈ l.takeWhile p) : c ∈ l := by
  induction l with
  | nil => simp at h
  | cons a t ih =>
    by_cases hp : p a
    · rw [List.takeWhile_cons_of_pos hp, List.mem_cons] at h
      rcases h with h | h
      · exact h ▸ List.mem_cons_self _ _
      · exact List.mem_cons_of_mem _ (ih h)
    · rw [List.takeWhile_cons_of_neg (by simpa using hp)] at h
      simp at h

lemma mem_of_mem_dropWhile {p : Char → Bool} {l : List Char} {c : Char}
    (h : c ∈ l.dropWhile p) : c ∈ l := by
  induction l with
  | nil => simp at h
  | cons a t ih =>
    by_cases hp : p a
    · rw [List.dropWhile_cons_of_pos hp] at h
      exact List.mem_cons_of_mem _ (ih h)
    · rwa [List.dropWhile_cons_of_neg (by simpa using hp)] at h

lemma matchPiped_conservative : Conservative matchPiped := by
  intro l rep rest h
  simp only [matchPiped] at h
  split at h
  all_goals try exact Option.noConfusion h
  rename_i r
  split at h
  all_goals try exact Option.noConfusion h
  rename_i r2 heq
  split at h
  all_goals try exact Option.noConfusion h
  split at h
  all_goals try exact Option.noConfusion h
  rename_i r3 heq2
  split at h
  all_goals try exact Option.noConfusion h
  rw [Option.some.injEq, Prod.mk.injEq] at h
  obtain ⟨h1, h2⟩ := h
  subst h1; subst h2
  refine ⟨fun x hx => ?_, fun x hx => ?_⟩
  · have hx3 : x ∈ List.dropWhile (fun c => !(c == ']' || c == '|')) r := by
      rw [heq]; exact List.mem_cons_of_mem _ (mem_of_mem_takeWhile hx)
    exact List.mem_cons_of_mem _ (List.mem_cons_of_mem _ (mem_of_mem_dropWhile hx3))
  · have hx1 : x ∈ List.dropWhile (fun c => !(c == ']')) r2 := by
      rw [heq2]; simp [hx]
    have hx3 : x ∈ List.dropWhile (fun c => !(c == ']' || c == '|')) r := by
      rw [heq]; exact List.mem_cons_of_mem _ (mem_of_mem_dropWhile hx1)
    exact List.mem_cons_of_mem _ (List.mem_cons_of_mem _ (mem_of_mem_dropWhile hx3))

lemma matchBare_conservative : Conservative matchBare := by
  intro l rep rest h
  simp only [matchBare] at h
  split at h
  all_goals try exact Option.noConfusion h
  rename_i r
  split at h
  all_goals try exact Option.noConfusion h
  split at h
  all_goals try exact Option.noConfusion h
  rename_i r2 heq
  rw [Option.some.injEq, Prod.mk.injEq] at h
  obtain ⟨h1, h2⟩ := h
  subst h1; subst h2
  refine ⟨fun x hx => ?_, fun x hx => ?_⟩
  · exact List.mem_cons_of_mem _ (List.mem_cons_of_mem _ (mem_of_mem_takeWhile hx))
  · have hx1 : x ∈ List.dropWhile (fun c => !(c == ']')) r := by rw [heq]; simp [hx]
    exact List.mem_cons_of_mem _ (List.mem_cons_of_mem _ (mem_of_mem_dropWhile hx1))

lemma matchTemplate_conservative : Conservative matchTemplate := by
  intro l rep rest h
  simp only [matchTemplate] at h
  split at h
  all_goals try exact Option.noConfusion h
  rename_i r
  split at h
  all_goals try exact Option.noConfusion h
  split at h
  all_goals try exact Option.noConfusion h
  rename_i r2 heq
  rw [Option.some.injEq, Prod.mk.injEq] at h
  obtain ⟨h1, h2⟩ := h
  subst h1; subst h2
  refine ⟨fun x hx => ?_, fun x hx => ?_⟩
  · simp at hx
  · have hx1 : x ∈ List.dropWhile (fun c => !(c == '\x7d')) r := by rw [heq]; simp [hx]
    exact List.mem_cons_of_mem _ (List.mem_cons_of_mem _ (mem_of_mem_dropWhile hx1))

lemma matchTag_conservative : Conservative matchTag := by
  intro l rep rest h
  simp only [matchTag] at h
  split at h
  all_goals try exact Option.noConfusion h
  rename_i r
  split at h
  all_goals try exact Option.noConfusion h
  split at h
  all_goals try exact Option.noConfusion h
  rename_i r2 heq
  rw [Option.some.injEq, Prod.mk.injEq] at h
  obtain ⟨h1, h2⟩ := h
  subst h1; subst h2
  refine ⟨fun x hx => ?_, fun x hx => ?_⟩
  · simp at hx
  · have hx1 : x ∈ List.dropWhile (fun c => !(c == '>')) r := by rw [heq]; simp [hx]
    exact List.mem_cons_of_mem _ (mem_of_mem_dropWhile hx1)

lemma matchParenStar_conservative : Conservative matchParenStar := by
  intro l rep rest h
  simp only [matchParenStar] at h
  split at h
  all_goals try exact Option.noConfusion h
  rename_i r
  split at h
  all_goals try exact Option.noConfusion h
  rename_i r2 heq
  split at h
  all_goals try exact Option.noConfusion h
  rw [Option.some.injEq, Prod.mk.injEq] at h
  obtain ⟨h1, h2⟩ := h
  subst h1; subst h2
  refine ⟨fun x hx => ?_, fun x hx => ?_⟩
  · simp at hx
  · have hx1 : x ∈ List.dropWhile (fun c => !(c == ')')) r := by rw [heq]; simp [hx]
    exact List.mem_cons_of_mem _ (mem_of_mem_dropWhile hx1)

lemma mem_scanRepl {m : List Char → Option (List Char × List Char)}
    (hm : Conservative m) :
    ∀ fuel (l : List Char), ∀ c ∈ scanRepl m fuel l, c ∈ l := by
  intro fuel
  induction fuel with
  | zero =>
    intro l c hc
    cases l with
    | nil => simpa [scanRepl] using hc
    | cons a t => simpa [scanRepl] using hc
  | succ n ih =>
    intro l c hc
    cases l with
    | nil => simpa [scanRepl] using hc
    | cons a t =>
      simp only [scanRepl] at hc
      cases hmm : m (a :: t) with
      | none =>
        rw [hmm] at hc
        rcases List.mem_cons.mp hc with h | h
        · exact h ▸ List.mem_cons_self _ _
        · exact List.mem_cons_of_mem _ (ih t c h)
      | some pr =>
        obtain ⟨rep, rest⟩ := pr
        rw [hmm] at hc
        rcases List.mem_append.mp hc with h | h
        · exact (hm _ _ _ hmm).1 c h
        · exact (hm _ _ _ hmm).2 c (ih rest c h)

lemma mem_jsReplace {m : List Char → Option (List Char × List Char)}
    (hm : Conservative m) {l : List Char} {c : Char} (h : c ∈ jsReplace m l) :
    c ∈ l :=
  mem_scanRepl hm _ _ c h

lemma mem_stripEdges {l : List Char} {c : Char} (h : c ∈ stripEdges l) : c ∈ l := by
  unfold stripEdges at h
  exact mem_of_mem_dropWhile
    (List.mem_reverse.mp (mem_of_mem_dropWhile (List.mem_reverse.mp h)))

lemma mem_jsTrim {l : List Char} {c : Char} (h : c ∈ jsTrim l) : c ∈ l := by
  unfold jsTrim at h
  exact mem_of_mem_dropWhile
    (List.mem_reverse.mp (mem_of_mem_dropWhile (List.mem_reverse.mp h)))

lemma mem_cleanWikiText {l : List Char} {c : Char} (h : c ∈ cleanWikiText l) :
    c ∈ l := by
  unfold cleanWikiText at h
  exact mem_jsReplace matchPiped_conservative
    (mem_jsReplace matchBare_conservative
      (mem_jsReplace matchTemplate_conservative
        (mem_jsReplace matchTag_conservative
          (mem_jsReplace matchParenStar_conservative
            (mem_stripEdges (mem_jsTrim h))))))

lemma mem_of_startsWithL {pat l : List Char} (h : startsWithL pat l = true) :
    ∀ c ∈ pat, c ∈ l := by
  induction pat generalizing l with
  | nil => intro c hc; simp at hc
  | cons p ps ih =>
    cases l with
    | nil => simp [startsWithL] at h
    | cons a t =>
      simp only [startsWithL, Bool.and_eq_true, beq_iff_eq] at h
      intro c hc
      rcases List.mem_cons.mp hc with hc | hc
      · exact (hc.trans h.1) ▸ List.mem_cons_self _ _
      · exact List.mem_cons_of_mem _ (ih h.2 c hc)

lemma mem_of_containsSeq {pat l : List Char} (h : containsSeq pat l = true) :
    ∀ c ∈ pat, c ∈ l := by
  induction l with
  | nil => exact mem_of_startsWithL (by simpa [containsSeq] using h)
  | cons a t ih =>
    simp only [containsSeq, Bool.or_eq_true] at h
    rcases h with h | h
    · exact mem_of_startsWithL h
    · exact fun c hc => List.mem_cons_of_mem _ (ih h c hc)

/-- C1: the claim "for every input string, the Text Cleaner returns a string
containing no residual markup" is false: the lone unmatched `[[` passes
through `cleanWikiText` unchanged (no replacement pattern matches it). -/
theorem cleanWikiText_markup_counterexample :
    containsMarkup (cleanWikiText ("[[".data)) :=
  Or.inl (by decide)

/-- C1 (amended): for input containing none of the markup-significant
characters, the Text Cleaner output contains no residual `[[`, `]]`,
template braces, or `<...>` markup; unmatched or malformed markup in the
input may survive cleaning. -/
theorem cleanWikiText_no_markup_of_clean_chars (l : List Char)
    (h : noMarkupChars l) : ¬ containsMarkup (cleanWikiText l) := by
  intro hcm
  rcases hcm with h1 | h1 | h1 | h1 | h1
  · exact (h '[' (mem_cleanWikiText (mem_of_containsSeq h1 '[' (by simp)))).1 rfl
  · exact (h ']' (mem_cleanWikiText (mem_of_containsSeq h1 ']' (by simp)))).2.1 rfl
  · exact (h '\x7b' (mem_cleanWikiText
      (mem_of_containsSeq h1 '\x7b' (by simp)))).2.2.1 rfl
  · exact (h '\x7d' (mem_cleanWikiText
      (mem_of_containsSeq h1 '\x7d' (by simp)))).2.2.2.1 rfl
  · obtain ⟨a, t, b, hEq, _, _⟩ := h1
    have hlt : '<' ∈ cleanWikiText l := by rw [hEq]; simp
    exact (h '<' (mem_cleanWikiText hlt)).2.2.2.2 rfl

theorem cleanWikiText_no_markup_of_clean_chars_witness :
    noMarkupChars ("ある日の出来事テスト".data) ∧
      ¬ containsMarkup (cleanWikiText ("ある日の出来事テスト".data)) :=
  ⟨by unfold noMarkupChars; decide,
    cleanWikiText_no_markup_of_clean_chars _ (by unfold noMarkupChars; decide)⟩

/-- C2: `sortByYear` returns the list sorted ascending by the year parsed
from the leading `{year}年?:` pattern of each label, where a 紀元前 prefix
yields a negative year and an unparseable label sorts as year zero; the
spec's example sorts to B (-500), C (5), A (1990). -/
theorem sortByYear_sorts_by_extracted_year :
    (∀ items : List String,
        (sortByYear items).Sorted (fun a b => extractYearS a ≤ extractYearS b)
        ∧ List.Perm (sortByYear items) items)
    ∧ (∀ rest n, parseDigitsYearColon rest = some n →
        extractYear ('紀' :: '元' :: '前' :: rest) = -(n : Int))
    ∧ (∀ l, bcParse l = none → adParse l = none → extractYear l = 0)
    ∧ sortByYear ["1990年: A", "紀元前500年: B", "5年: C"] =
        ["紀元前500年: B", "5年: C", "1990年: A"] := by
  refine ⟨fun items => ⟨?_, ?_⟩, ?_, ?_, ?_⟩
  · haveI : IsTotal String (fun a b => extractYearS a ≤ extractYearS b) :=
      ⟨fun a b => le_total _ _⟩
    haveI : IsTrans String (fun a b => extractYearS a ≤ extractYearS b) :=
      ⟨fun a b c => le_trans⟩
    exact List.sorted_insertionSort _ items
  · exact List.perm_insertionSort _ items
  · intro rest n h
    have hb : bcParse ('紀' :: '元' :: '前' :: rest) = some n :=
      (rfl : bcParse ('紀' :: '元' :: '前' :: rest) = parseDigitsYearColon rest).trans h
    unfold extractYear
    rw [hb]
  · intro l h1 h2
    unfold extractYear
    rw [h1, h2]
  · decide

/-- C4: contrary to the claim, a deaths section with both a top-level bullet
and a nested `=== 人物 ===` sub-section yields the *top-level* entry and not
the persons entry.  The capture terminator lookahead `== [^=]` already holds
one character into `=== 人物 ===` (at `== 人`), so the captured deaths
content is cut off before the sub-section and the `personSection` narrowing
(main.ts 156) never fires. -/
theorem parseTodayInfo_deaths_on_nested_person_subsection :
    (parseTodayInfo ("8月10日")
        ("== 忌日 ==\n* 1990年 - 廃止製品試験データ\n=== 人物 ===\n* 1950年 - 山田太郎、俳優\n".data)).deaths
      = ["1990年: 廃止製品試験データ"]
    ∧ "1950年: 山田太郎（俳優）" ∉
      (parseTodayInfo ("8月10日")
        ("== 忌日 ==\n* 1990年 - 廃止製品試験データ\n=== 人物 ===\n* 1950年 - 山田太郎、俳優\n".data)).deaths := by
  constructor
  · decide
  · decide

/-- C5: the claim's reject conditions are incomplete: an events body
containing `multiple image` (and none of the claim's markers, with length
inside [11, 149]) is rejected by the code all the same. -/
theorem lineRejectConditions_counterexample :
    matchEventLine ("* 1985年 - 試験 multiple image 試験データです".data)
      = some ("1985年".data, "試験 multiple image 試験データです".data)
    ∧ cleanWikiText ("試験 multiple image 試験データです".data)
        = "試験 multiple image 試験データです".data
    ∧ ("試験 multiple image 試験データです".data).isEmpty = false
    ∧ containsSeq ("Image:".data) ("試験 multiple image 試験データです".data) = false
    ∧ containsSeq ("File:".data) ("試験 multiple image 試験データです".data) = false
    ∧ containsSeq ("\x7b\x7b".data) ("試験 multiple image 試験データです".data) = false
    ∧ 10 < ("試験 multiple image 試験データです".data).length
    ∧ ("試験 multiple image 試験データです".data).length < 150
    ∧ processEventLine ("* 1985年 - 試験 multiple image 試験データです".data) = none := by
  refine ⟨by decide, by decide, by decide, by decide, by decide, by decide,
    by decide, by decide, by decide⟩

/-- C5 (amended): on a matched line, an events record is rejected exactly
when the cleaned body is empty, contains `Image:`, `File:`, `multiple
image`, or an unresolved template opener, or has length outside [11, 149];
a births/deaths record is rejected exactly when the cleaned person name is
empty or has length outside [2, 49] — person lines get no marker checks.
Unmatched lines yield no record. -/
theorem lineRejectConditions :
    (∀ line yb, matchEventLine line = some yb →
      (processEventLine line = none ↔
        (cleanWikiText yb.2).isEmpty = true
        ∨ containsSeq ("Image:".data) (cleanWikiText yb.2) = true
        ∨ containsSeq ("File:".data) (cleanWikiText yb.2) = true
        ∨ containsSeq ("multiple image".data) (cleanWikiText yb.2) = true
        ∨ containsSeq ("\x7b\x7b".data) (cleanWikiText yb.2) = true
        ∨ ¬(10 < (cleanWikiText yb.2).length ∧ (cleanWikiText yb.2).length < 150)))
    ∧ (∀ plus line ybo, matchPersonLine plus line = some ybo →
      (processPersonLine plus line = none ↔
        (cleanWikiText ybo.2.1).isEmpty = true
        ∨ ¬(1 < (cleanWikiText ybo.2.1).length ∧ (cleanWikiText ybo.2.1).length < 50)))
    ∧ (∀ line, matchEventLine line = none → processEventLine line = none)
    ∧ (∀ plus line, matchPersonLine plus line = none →
        processPersonLine plus line = none) := by
  refine ⟨fun line yb h => ?_, fun plus line ybo h => ?_,
    fun line h => ?_, fun plus line h => ?_⟩
  · unfold processEventLine
    rw [h]
    simp only
    split_ifs with h1 h2 h3 h4 h5 h6 <;> simp_all
  · unfold processPersonLine
    rw [h]
    simp only
    split_ifs with h1 h2 <;> simp_all
  · unfold processEventLine
    rw [h]
  · unfold processPersonLine
    rw [h]

theorem lineRejectConditions_witness :
    processEventLine ("* 1999年 - 短い内容".data) = none :=
  (lineRejectConditions.1 ("* 1999年 - 短い内容".data)
    ("1999年".data, "短い内容".data) (by decide)).mpr
    (Or.inr (Or.inr (Or.inr (Or.inr (Or.inr (by decide))))))

/-- C6: the claim that the birth/death record's label is `{body}（{role}）`
with the year stored separately is false: the code stores one string with
the year embedded as a prefix, `"{year}: {body}（{role}）"`. -/
theorem personRecordFormat_counterexample :
    processPersonLine '+' ("* [[1990年]] - 山田太郎、俳優（+1930年）".data)
      = some ("1990年: 山田太郎（俳優）".data)
    ∧ "1990年: 山田太郎（俳優）".data ≠ "山田太郎（俳優）".data := by
  refine ⟨by decide, by decide⟩

/-- C6 (amended): on a matched births/deaths line that yields a record, the
record is the single string `"{year}: {body}（{role}）"` when a role was
captured and survives cleaning, and `"{year}: {body}"` otherwise — the year
is embedded as the record's prefix, not stored separately. -/
theorem personRecordFormat (plus : Char) (line : List Char)
    (ybo : List Char × List Char × Option (List Char)) (r : List Char)
    (hm : matchPersonLine plus line = some ybo)
    (hp : processPersonLine plus line = some r) :
    r = ybo.1 ++ (": ".data) ++
      (let p := cleanWikiText ybo.2.1
       let oc := match ybo.2.2 with
         | some o => cleanWikiText o
         | none => []
       if oc.isEmpty then p else p ++ ['（'] ++ oc ++ ['）']) := by
  unfold processPersonLine at hp
  rw [hm] at hp
  simp only at hp
  split_ifs at hp <;> simp_all

theorem personRecordFormat_witness :
    ("1990年: 山田太郎（俳優）".data : List Char) =
      "1990年".data ++ (": ".data) ++
        (let p := cleanWikiText ("山田太郎".data)
         let oc := match (some ("俳優".data) : Option (List Char)) with
           | some o => cleanWikiText o
           | none => []
         if oc.isEmpty then p else p ++ ['（'] ++ oc ++ ['）']) :=
  personRecordFormat '+' ("* [[1990年]] - 山田太郎、俳優（+1930年）".data)
    ("1990年".data, "山田太郎".data, some ("俳優".data)) _ (by decide) (by decide)

/-- C7: contrary to the claim, a primary-source fetch failure sends *no*
message at all: `fetchTodayInfo` catches the throw and returns `null`, and
`main` returns before `postToSlack`; the error-notice path is unreachable
for this failure. -/
theorem primaryFailure_counterexample :
    fetchTodayInfo ⟨"8月10日", none, some ("x"), some ("ヒマワリ"), fun _ => 0, fun _ => 0⟩ = none
    ∧ mainSink ⟨"8月10日", none, some ("x"), some ("ヒマワリ"), fun _ => 0, fun _ => 0⟩
        ⟨true, true, "e"⟩ = []
    ∧ ∀ e, ([] : List String) ≠ [errorNotice e] := by
  refine ⟨rfl, rfl, fun e => by simp⟩

/-- C7 (amended): when the primary HTML fetch fails, the run aborts with no
digest and *nothing* is sent to the messaging sink — not even an error
notice. -/
theorem primaryFailure_aborts_silently (env : FetchEnv) (s : SinkEnv)
    (h : env.phpHtml = none) :
    fetchTodayInfo env = none ∧ mainSink env s = [] := by
  have h1 : fetchTodayInfo env = none := by unfold fetchTodayInfo; rw [h]
  exact ⟨h1, by unfold mainSink; rw [h1]⟩

theorem primaryFailure_aborts_silently_witness :
    fetchTodayInfo ⟨"1月1日", none, none, none, fun _ => 0, fun _ => 0⟩ = none
    ∧ mainSink ⟨"1月1日", none, none, none, fun _ => 0, fun _ => 0⟩
        ⟨false, false, ""⟩ = [] :=
  primaryFailure_aborts_silently _ _ rfl

/-- C8: when the flower lookup fails or throws (`flowerField = none` after
`fetchBirthFlower`'s catch), the digest is still produced, its anniversary,
historical-event and birth data are exactly those of the same run with a
working flower source, and its flower field is absent.  The flower failure
never aborts the run. -/
theorem flowerFailure_degrades (env : FetchEnv) (html : String)
    (h : env.phpHtml = some html) :
    ∃ d d2, fetchTodayInfo env = some d
      ∧ fetchTodayInfo ⟨env.displayDate, env.phpHtml, env.wikiContent, none,
          env.picksH, env.picksB⟩ = some d2
      ∧ d2.events = d.events ∧ d2.historical = d.historical
      ∧ d2.births = d.births ∧ d2.date = d.date ∧ d2.birthFlower = none := by
  obtain ⟨dd, ph, wc, ff, p1, p2⟩ := env
  cases h
  exact ⟨_, _, rfl, rfl, rfl, rfl, rfl, rfl, rfl⟩

theorem flowerFailure_degrades_witness :
    ∃ d d2,
      fetchTodayInfo ⟨"1月1日", some ("h"), some ("c"), some ("ヒマワリ"), fun _ => 0, fun _ => 0⟩
        = some d
      ∧ fetchTodayInfo
          ⟨"1月1日", some ("h"), some ("c"), none, fun _ => 0, fun _ => 0⟩ = some d2
      ∧ d2.events = d.events ∧ d2.historical = d.historical
      ∧ d2.births = d.births ∧ d2.date = d.date ∧ d2.birthFlower = none :=
  flowerFailure_degrades _ ("h") rfl

/-- C9: the Presenter renders, after the date title, exactly one section per
non-empty category in the fixed order anniversaries (記念日), historical
events, births, flower, then the fixed attribution footer; each list section
shows only the first five entries (`renderSection h xs` depends only on
`xs.take 5`, which has at most 5 elements), and an empty category
contributes nothing. -/
theorem formatSlackMessage_sections :
    (∀ info : TodayInfo,
      formatSlackMessage info =
        "📅 *今日は何の日？* - " ++ info.date ++ "\n\n"
        ++ renderSection ("🎉 *記念日・行事・お祭り*\n") info.events
        ++ renderSection ("🏛️ *歴史上の出来事*\n") info.historical
        ++ renderSection ("🎂 *今日の誕生日*\n") info.births
        ++ renderFlower info.birthFlower
        ++ "\n_Powered by php.co.jp, Wikipedia & whatistoday.cyou_")
    ∧ (∀ h : String, renderSection h [] = "")
    ∧ (∀ (h : String) (xs : List String),
        renderSection h xs = renderSection h (xs.take 5)
        ∧ (xs.take 5).length ≤ 5) := by
  refine ⟨fun info => ?_, fun h => rfl, fun h xs => ⟨?_, ?_⟩⟩
  · obtain ⟨dd, ev, hi, bi, fl⟩ := info
    simp only [formatSlackMessage, renderSection, renderFlower]
    cases fl with
    | none =>
      split_ifs <;>
        simp only [String.append_assoc, String.append_empty, String.empty_append]
    | some f =>
      split_ifs <;>
          simp only [String.append_assoc, String.append_empty, String.empty_append] <;>
        split_ifs <;>
          simp only [String.append_assoc, String.append_empty, String.empty_append]
  · unfold renderSection
    rw [List.take_take]
    norm_num
  · exact List.length_take_le _ _

/-! Part: C10: shape of parser-produced birth records -/

lemma firstSome_eq_some {α β : Type} {l : List α} {f : α → Option β} {b : β}
    (h : firstSome l f = some b) : ∃ a ∈ l, f a = some b := by
  induction l with
  | nil => simp [firstSome] at h
  | cons x xs ih =>
    simp only [firstSome] at h
    split at h
    · rename_i v heq
      exact ⟨x, List.mem_cons_self _ _, heq.trans h⟩
    · obtain ⟨a, ha, hfa⟩ := ih h
      exact ⟨a, List.mem_cons_of_mem _ ha, hfa⟩

lemma all_digit_of_mem_take {r : List Char} {k : Nat}
    (hk : k ≤ (r.takeWhile Char.isDigit).length) :
    ∀ c ∈ r.take k, Char.isDigit c = true := by
  intro c hc
  have hpre : r.takeWhile Char.isDigit ++ r.dropWhile Char.isDigit = r :=
    List.takeWhile_append_dropWhile _ _
  have : r.take k = (r.takeWhile Char.isDigit).take k := by
    conv_lhs => rw [← hpre]
    exact List.take_append_of_le_length hk
  rw [this] at hc
  exact List.mem_takeWhile_imp (List.mem_of_mem_take hc)

lemma mem_yearTokenCands {pre r yr s : List Char}
    (h : (yr, s) ∈ yearTokenCands pre r) :
    ∃ ds, ds ≠ [] ∧ (∀ c ∈ ds, Char.isDigit c = true) ∧
      (yr = pre ++ ds ∨ yr = pre ++ ds ++ ['年']) := by
  unfold yearTokenCands at h
  rw [List.mem_flatMap] at h
  obtain ⟨dgs, hdgs, hmem⟩ := h
  unfold greedyTakes1 at hdgs
  rw [List.mem_map] at hdgs
  obtain ⟨k, hk, hpair⟩ := hdgs
  rw [List.mem_reverse, List.mem_range'_1] at hk
  refine ⟨r.take k, ?_, all_digit_of_mem_take (by omega), ?_⟩
  · have hklen : k ≤ r.length := by
      have := (r.takeWhile_prefix Char.isDigit).length_le
      omega
    have : (r.take k).length = k := by
      rw [List.length_take]; omega
    intro hnil
    rw [hnil] at this
    simp at this
    omega
  · subst hpair
    split at hmem
    · rename_i s1 heq
      rcases List.mem_cons.mp hmem with hmem | hmem
      · rw [Prod.mk.injEq] at hmem
        exact Or.inr (by rw [hmem.1])
      · rcases List.mem_cons.mp hmem with hmem | hmem
        · rw [Prod.mk.injEq] at hmem
          exact Or.inl (by rw [hmem.1])
        · simp at hmem
    · rcases List.mem_cons.mp hmem with hmem | hmem
      · rw [Prod.mk.injEq] at hmem
        exact Or.inl (by rw [hmem.1])
      · simp at hmem

lemma matchPersonLine_year_shape {plus : Char} {l yr b : List Char}
    {o : Option (List Char)}
    (h : matchPersonLine plus l = some (yr, b, o)) :
    ∃ ds, ds ≠ [] ∧ (∀ c ∈ ds, Char.isDigit c = true) ∧
      (yr = ds ∨ yr = ds ++ ['年']) := by
  unfold matchPersonLine at h
  split at h
  all_goals try exact Option.noConfusion h
  obtain ⟨ys, hysmem, hys⟩ := firstSome_eq_some h
  rw [Option.map_eq_some'] at hys
  obtain ⟨bo, _, hbo⟩ := hys
  rw [Prod.mk.injEq] at hbo
  obtain ⟨ds, hne, hdig, hshape⟩ :=
    @mem_yearTokenCands [] _ _ _ (by rw [Prod.mk.eta]; exact hysmem)
  refine ⟨ds, hne, hdig, ?_⟩
  rw [← hbo.1]
  simpa using hshape

lemma takeWhile_digits_split {ds rest : List Char}
    (hds : ∀ c ∈ ds, Char.isDigit c = true) {x : Char}
    (hx : Char.isDigit x = false) :
    (ds ++ x :: rest).takeWhile Char.isDigit = ds ∧
      (ds ++ x :: rest).dropWhile Char.isDigit = x :: rest := by
  induction ds with
  | nil =>
    rw [List.nil_append]
    rw [List.takeWhile_cons_of_neg (by simp [hx]),
      List.dropWhile_cons_of_neg (by simp [hx])]
    exact ⟨rfl, rfl⟩
  | cons d ds2 ih =>
    have hd : Char.isDigit d = true := hds d (List.mem_cons_self _ _)
    have ih2 := ih fun c hc => hds c (List.mem_cons_of_mem _ hc)
    rw [List.cons_append, List.takeWhile_cons_of_pos hd,
      List.dropWhile_cons_of_pos hd]
    exact ⟨by rw [ih2.1], ih2.2⟩

lemma extractYear_of_digit_record {ds tail : List Char} (hne : ds ≠ [])
    (hds : ∀ c ∈ ds, Char.isDigit c = true)
    {r : List Char}
    (hr : r = ds ++ '年' :: ':' :: tail ∨ r = ds ++ ':' :: tail) :
    bcParse r = none ∧ adParse r = some (natOfDigits ds) ∧
      extractYear r = (natOfDigits ds : Int) := by
  have hdropA : ∀ x (rest : List Char), Char.isDigit x = false →
      parseDigitsYearColon (ds ++ x :: rest) =
        (match x :: rest with
         | '年' :: ':' :: _ => some (natOfDigits ds)
         | ':' :: _ => some (natOfDigits ds)
         | _ => none) := by
    intro x rest hx
    obtain ⟨h1, h2⟩ := @takeWhile_digits_split ds rest hds x hx
    unfold parseDigitsYearColon
    simp only [h1, h2]
    rw [if_neg (by simp [List.isEmpty_iff, hne])]
  have hbc : bcParse r = none := by
    obtain ⟨d, ds2, rfl⟩ : ∃ d ds2, ds = d :: ds2 := by
      cases ds with
      | nil => exact absurd rfl hne
      | cons d ds2 => exact ⟨d, ds2, rfl⟩
    have hd : Char.isDigit d = true := hds d (List.mem_cons_self _ _)
    have hdne : d ≠ '紀' := by
      intro hEq
      rw [hEq] at hd
      exact absurd hd (by decide)
    rcases hr with rfl | rfl <;>
    · unfold bcParse
      split
      · rename_i heq
        rw [List.cons_append] at heq
        exact absurd (List.cons.injEq .. ▸ heq).1 hdne
      · rfl
  have had : adParse r = some (natOfDigits ds) := by
    unfold adParse
    rcases hr with rfl | rfl
    · rw [hdropA '年' (':' :: tail) (by decide)]
      rfl
    · rw [hdropA ':' tail (by decide)]
      rfl
  refine ⟨hbc, had, ?_⟩
  unfold extractYear
  rw [hbc, had]

/-- C10: the claim overreaches with "positive": a source line with year
token `0年` produces the birth record `"0年: …"`, whose prefix parses (via
the CE branch, not the fallback) to year 0, which is not positive. -/
theorem birthsRecords_positive_counterexample :
    (parseWikipediaContent ("== 誕生 ==\n* 0年 - 零年人物テスト\n".data)).2
      = ["0年: 零年人物テスト".data]
    ∧ extractYear ("0年: 零年人物テスト".data) = 0
    ∧ ¬(0 < extractYear ("0年: 零年人物テスト".data)) := by
  refine ⟨by decide, by decide, by decide⟩

/-- C10 (amended): every string placed in the births list by
`parseWikipediaContent` begins with a nonempty digit prefix optionally
followed by `年` and then `:`, which `extractYear` parses through the CE
branch (`bcParse` fails, `adParse` succeeds) to the non-negative year given
by those digits — parser-produced birth records never take `sortByYear`'s
unparseable-year-zero fallback, though the parsed value is 0 itself when
the digits are all zeros. -/
lemma birthsRecord_shape_finish {r yr1 ds X : List Char} (hne : ds ≠ [])
    (hdig : ∀ c ∈ ds, Char.isDigit c = true)
    (hshape : yr1 = ds ∨ yr1 = ds ++ ['年'])
    (hrEq0 : r = yr1 ++ [':', ' '] ++ X) :
    ∃ ds2 tail, ds2 ≠ [] ∧ (∀ c ∈ ds2, Char.isDigit c = true)
      ∧ (r = ds2 ++ '年' :: ':' :: tail ∨ r = ds2 ++ ':' :: tail)
      ∧ bcParse r = none
      ∧ adParse r = some (natOfDigits ds2)
      ∧ extractYear r = (natOfDigits ds2 : Int)
      ∧ 0 ≤ extractYear r := by
  have hrEq : r = yr1 ++ ':' :: ' ' :: X := by
    rw [hrEq0, List.append_assoc]
    rfl
  have hsh : r = ds ++ '年' :: ':' :: (' ' :: X) ∨ r = ds ++ ':' :: (' ' :: X) := by
    rcases hshape with hs | hs
    · right
      rw [hrEq, hs]
    · left
      rw [hrEq, hs, List.append_assoc]
      rfl
  obtain ⟨hbc, had, hex⟩ := extractYear_of_digit_record hne hdig hsh
  exact ⟨ds, ' ' :: X, hne, hdig, hsh, hbc, had, hex,
    by rw [hex]; exact Int.ofNat_nonneg _⟩

/-- C10 (amended): every string placed in the births list by
`parseWikipediaContent` begins with a nonempty digit prefix optionally
followed by `年` and then `:`, which `extractYear` parses through the CE
branch (`bcParse` fails, `adParse` succeeds) to the non-negative year given
by those digits — parser-produced birth records never take `sortByYear`'s
unparseable-year-zero fallback, though the parsed value is 0 itself when
the digits are all zeros. -/
theorem birthsRecords_year_parse (content r : List Char)
    (hr : r ∈ (parseWikipediaContent content).2) :
    ∃ ds tail, ds ≠ [] ∧ (∀ c ∈ ds, Char.isDigit c = true)
      ∧ (r = ds ++ '年' :: ':' :: tail ∨ r = ds ++ ':' :: tail)
      ∧ bcParse r = none
      ∧ adParse r = some (natOfDigits ds)
      ∧ extractYear r = (natOfDigits ds : Int)
      ∧ 0 ≤ extractYear r := by
  unfold parseWikipediaContent at hr
  simp only at hr
  split at hr
  · simp at hr
  rename_i sec hsec
  rw [List.mem_filterMap] at hr
  obtain ⟨line, _, hline⟩ := hr
  unfold processPersonLine at hline
  split at hline
  · exact Option.noConfusion hline
  rename_i ybo heq
  obtain ⟨yr1, b1, o1⟩ := ybo
  obtain ⟨ds, hne, hdig, hshape⟩ := matchPersonLine_year_shape heq
  simp only at hline
  split_ifs at hline
  all_goals
    rw [Option.some.injEq] at hline
    exact birthsRecord_shape_finish hne hdig hshape hline.symm

theorem birthsRecords_year_parse_witness :
    ∃ ds tail, ds ≠ [] ∧ (∀ c ∈ ds, Char.isDigit c = true)
      ∧ (("1990年: 山田太郎".data : List Char) = ds ++ '年' :: ':' :: tail
         ∨ ("1990年: 山田太郎".data : List Char) = ds ++ ':' :: tail)
      ∧ bcParse ("1990年: 山田太郎".data) = none
      ∧ adParse ("1990年: 山田太郎".data) = some (natOfDigits ds)
      ∧ extractYear ("1990年: 山田太郎".data) = (natOfDigits ds : Int)
      ∧ 0 ≤ extractYear ("1990年: 山田太郎".data) :=
  birthsRecords_year_parse ("== 誕生 ==\n* 1990年 - 山田太郎\n".data)
    ("1990年: 山田太郎".data) (by decide)

lemma length_swapL {α : Type} (a : List α) (i j : Nat) :
    (swapL a i j).length = a.length := by
  unfold swapL
  split
  · simp
  · rfl

lemma swapL_of_ge_left {α : Type} {a : List α} {i j : Nat} (h : a.length ≤ i) :
    swapL a i j = a := by
  unfold swapL
  split
  · rename_i x y hx hy
    rw [List.getElem?_eq_none h] at hx
    exact Option.noConfusion hx
  · rfl

lemma swapL_of_ge_right {α : Type} {a : List α} {i j : Nat} (h : a.length ≤ j) :
    swapL a i j = a := by
  unfold swapL
  split
  · rename_i x y hx hy
    rw [List.getElem?_eq_none h] at hy
    exact Option.noConfusion hy
  · rfl

lemma swapL_eq_set_set {α : Type} {a : List α} {i j : Nat}
    (hi : i < a.length) (hj : j < a.length) :
    swapL a i j = (a.set i a[j]).set j a[i] := by
  unfold swapL
  rw [List.getElem?_eq_getElem hi, List.getElem?_eq_getElem hj]

lemma getElem?_swapL {α : Type} {a : List α} {i j : Nat}
    (hi : i < a.length) (hj : j < a.length) (k : Nat) :
    (swapL a i j)[k]? =
      if k = j then a[i]? else if k = i then a[j]? else a[k]? := by
  rw [swapL_eq_set_set hi hj]
  by_cases hkj : k = j
  · subst hkj
    rw [if_pos rfl, List.getElem?_set_self (by simpa using hj),
      List.getElem?_eq_getElem hi]
  · rw [if_neg hkj, List.getElem?_set_ne (fun h => hkj h.symm)]
    by_cases hki : k = i
    · subst hki
      rw [if_pos rfl, List.getElem?_set_self hi, List.getElem?_eq_getElem hj]
    · rw [if_neg hki, List.getElem?_set_ne (fun h => hki h.symm)]

lemma swapL_take_comm {α : Type} {i j m : Nat} (hi : i < m) (hj : j < m)
    (a : List α) : (swapL a i j).take m = swapL (a.take m) i j := by
  rcases Nat.lt_or_ge i a.length with hii | hii
  · rcases Nat.lt_or_ge j a.length with hjj | hjj
    · have hti : i < (a.take m).length := by
        rw [List.length_take]; omega
      have htj : j < (a.take m).length := by
        rw [List.length_take]; omega
      apply List.ext_getElem?
      intro k
      rw [List.getElem?_take, getElem?_swapL hii hjj, getElem?_swapL hti htj]
      by_cases hk : k < m
      · rw [if_pos hk]
        by_cases hkj : k = j
        · rw [if_pos hkj, if_pos hkj, List.getElem?_take, if_pos hi]
        · rw [if_neg hkj, if_neg hkj]
          by_cases hki : k = i
          · rw [if_pos hki, if_pos hki, List.getElem?_take, if_pos hj]
          · rw [if_neg hki, if_neg hki, List.getElem?_take, if_pos hk]
      · rw [if_neg hk]
        have hkj : ¬ k = j := by omega
        have hki : ¬ k = i := by omega
        rw [if_neg hkj, if_neg hki, List.getElem?_take, if_neg hk]
    · rw [swapL_of_ge_right hjj,
        swapL_of_ge_right (show (a.take m).length ≤ j by rw [List.length_take]; omega)]
  · rw [swapL_of_ge_left hii,
      swapL_of_ge_left (show (a.take m).length ≤ i by rw [List.length_take]; omega)]

lemma swapL_drop_high {α : Type} {i j m : Nat} (hi : i < m) (hj : j < m)
    (a : List α) : (swapL a i j).drop m = a.drop m := by
  rcases Nat.lt_or_ge i a.length with hii | hii
  · rcases Nat.lt_or_ge j a.length with hjj | hjj
    · apply List.ext_getElem?
      intro k
      rw [List.getElem?_drop, List.getElem?_drop, getElem?_swapL hii hjj,
        if_neg (by omega), if_neg (by omega)]
    · rw [swapL_of_ge_right hjj]
  · rw [swapL_of_ge_left hii]

lemma set_set_decomp {α : Type} (A M S : List α) (x y u v : α) :
    ((A ++ y :: (M ++ x :: S)).set (A.length + (M.length + 1)) v).set A.length u
      = A ++ u :: (M ++ v :: S) := by
  rw [List.set_append_right _ _ (by omega)]
  have h1 : A.length + (M.length + 1) - A.length = M.length + 1 := by omega
  rw [h1, List.set_cons_succ]
  have h4 : (M ++ x :: S).set M.length v = M ++ v :: S := by
    rw [List.set_append_right _ _ (le_refl _)]
    have h2 : M.length - M.length = 0 := by omega
    rw [h2, List.set_cons_zero]
  rw [h4, List.set_append_right _ _ (le_refl _)]
  have h3 : A.length - A.length = 0 := by omega
  rw [h3, List.set_cons_zero]

lemma perm_swap_decomp {α : Type} (A M S : List α) (x y : α) :
    List.Perm (A ++ y :: (M ++ x :: S)) (A ++ x :: (M ++ y :: S)) := by
  apply List.Perm.append_left
  refine List.Perm.trans (List.Perm.cons y List.perm_middle) ?_
  refine List.Perm.trans (List.Perm.swap x y (M ++ S)) ?_
  exact List.Perm.cons x List.perm_middle.symm

lemma set_self_getElem {α : Type} {a : List α} {i : Nat} (hi : i < a.length) :
    a.set i a[i] = a := by
  apply List.ext_getElem?
  intro k
  rw [List.getElem?_set]
  by_cases hik : i = k
  · subst hik
    rw [if_pos rfl, if_pos hi, List.getElem?_eq_getElem hi]
  · rw [if_neg hik]

lemma swapL_comm {α : Type} (a : List α) (i j : Nat) :
    swapL a i j = swapL a j i := by
  rcases hx : a[i]? with _ | x <;> rcases hy : a[j]? with _ | y <;>
    simp only [swapL, hx, hy]
  by_cases hij : i = j
  · subst hij
    rw [List.set_set, List.set_set]
    have : x = y := Option.some.inj (hx.symm.trans hy)
    rw [this]
  · exact List.set_comm y x a hij

lemma swapL_perm_of_lt {α : Type} {a : List α} {i j : Nat} (hij : j < i)
    (hi : i < a.length) : List.Perm (swapL a i j) a := by
  have hj : j < a.length := lt_trans hij hi
  set A := a.take j with hA
  set M := (a.drop (j + 1)).take (i - j - 1) with hM
  set S := a.drop (i + 1) with hS
  have hlenA : A.length = j := by
    rw [hA, List.length_take]; omega
  have hlenM : M.length = i - j - 1 := by
    rw [hM, List.length_take, List.length_drop]; omega
  have hdecomp : a = A ++ a[j] :: (M ++ a[i] :: S) := by
    conv_lhs => rw [← List.take_append_drop j a]
    rw [hA]
    congr 1
    rw [List.drop_eq_getElem_cons hj]
    congr 1
    conv_lhs => rw [← List.take_append_drop (i - j - 1) (a.drop (j + 1))]
    rw [hM]
    congr 1
    rw [List.drop_drop]
    have he : j + 1 + (i - j - 1) = i := by omega
    rw [he, List.drop_eq_getElem_cons hi]
  have hswap : swapL a i j = A ++ a[i] :: (M ++ a[j] :: S) := by
    rw [swapL_eq_set_set hi hj]
    have hi2 : i = A.length + (M.length + 1) := by omega
    have hj2 : j = A.length := hlenA.symm
    calc (a.set i a[j]).set j a[i]
        = ((A ++ a[j] :: (M ++ a[i] :: S)).set (A.length + (M.length + 1))
            a[j]).set A.length a[i] := by
          rw [← hi2, ← hj2, ← hdecomp]
      _ = A ++ a[i] :: (M ++ a[j] :: S) := set_set_decomp A M S a[i] a[j] a[i] a[j]
  rw [hswap]
  conv_rhs => rw [hdecomp]
  exact perm_swap_decomp A M S a[j] a[i]

lemma swapL_perm {α : Type} (a : List α) (i j : Nat) :
    List.Perm (swapL a i j) a := by
  rcases Nat.lt_or_ge i a.length with hii | hii
  · rcases Nat.lt_or_ge j a.length with hjj | hjj
    · rcases Nat.lt_trichotomy j i with h | h | h
      · exact swapL_perm_of_lt h hii
      · subst h
        rw [swapL_eq_set_set hii hii, List.set_set, set_self_getElem hii]
      · rw [swapL_comm]
        exact swapL_perm_of_lt h hjj
    · rw [swapL_of_ge_right hjj]
  · rw [swapL_of_ge_left hii]

lemma length_fyLoop {α : Type} (picks : Nat → Nat) :
    ∀ (i : Nat) (a : List α), (fyLoop picks i a).length = a.length := by
  intro i
  induction i with
  | zero => intro a; rfl
  | succ n ih =>
    intro a
    show (fyLoop picks n (swapL a (n + 1) (picks (n + 1)))).length = a.length
    rw [ih, length_swapL]

lemma fyLoop_perm {α : Type} (picks : Nat → Nat) :
    ∀ (i : Nat) (a : List α), List.Perm (fyLoop picks i a) a := by
  intro i
  induction i with
  | zero => intro a; exact List.Perm.refl a
  | succ n ih =>
    intro a
    exact List.Perm.trans (ih _) (swapL_perm a (n + 1) (picks (n + 1)))

lemma fyLoop_decomp {α : Type} {picks : Nat → Nat} (hp : ∀ k, picks k ≤ k) :
    ∀ (i : Nat) (a : List α), i < a.length →
      fyLoop picks i a = fyLoop picks i (a.take (i + 1)) ++ a.drop (i + 1) := by
  intro i
  induction i with
  | zero =>
    intro a ha
    simp only [fyLoop]
    exact (List.take_append_drop 1 a).symm
  | succ n ih =>
    intro a ha
    have hj : picks (n + 1) ≤ n + 1 := hp (n + 1)
    simp only [fyLoop]
    set b := swapL a (n + 1) (picks (n + 1)) with hb
    have hblen : b.length = a.length := length_swapL ..
    have hbtake : swapL (a.take (n + 2)) (n + 1) (picks (n + 1)) = b.take (n + 2) := by
      rw [hb, swapL_take_comm (by omega) (by omega)]
    rw [hbtake, ih b (by omega), ih (b.take (n + 2)) (by rw [List.length_take]; omega)]
    rw [List.take_take]
    have hmin : (n + 1) ⊓ (n + 2) = n + 1 := by omega
    rw [hmin, List.append_assoc]
    congr 1
    have hdhigh : a.drop (n + 1 + 1) = b.drop (n + 1 + 1) := by
      rw [hb, swapL_drop_high (by omega) (by omega)]
    rw [hdhigh]
    have hsplit : (b.take (n + 2) ++ b.drop (n + 2)).drop (n + 1)
        = (b.take (n + 2)).drop (n + 1) ++ b.drop (n + 2) :=
      List.drop_append_of_le_length (by rw [List.length_take]; omega)
    have h22 : n + 1 + 1 = n + 2 := by omega
    rw [h22, ← hsplit, List.take_append_drop]

lemma fyLoop_eq_shuffleRec {α : Type} {picks : Nat → Nat}
    (hp : ∀ k, picks k ≤ k) :
    ∀ (i : Nat) (a : List α), a.length = i + 1 →
      fyLoop picks i a = shuffleRec (choiceList picks i) a := by
  intro i
  induction i with
  | zero => intro a ha; rfl
  | succ n ih =>
    intro a ha
    simp only [fyLoop, choiceList, shuffleRec]
    have hlen : a.length - 1 = n + 1 := by omega
    rw [hlen]
    set b := swapL a (n + 1) (picks (n + 1)) with hb
    have hblen : b.length = a.length := length_swapL ..
    rw [← ih (b.take (n + 1)) (by rw [List.length_take]; omega)]
    exact fyLoop_decomp hp n b (by omega)

lemma choicesFor_choiceList {picks : Nat → Nat} (hp : ∀ k, picks k ≤ k) :
    ∀ n, ChoicesFor (choiceList picks n) (n + 1) := by
  intro n
  induction n with
  | zero => simp [choiceList, ChoicesFor]
  | succ n ih =>
    show ChoicesFor (picks (n + 1) :: choiceList picks n) (n + 2)
    refine ⟨by omega, ?_, ?_⟩
    · have := hp (n + 1)
      omega
    · simpa using ih

lemma shuffleRec_length {α : Type} : ∀ (js : List Nat) (a : List α),
    (shuffleRec js a).length = a.length := by
  intro js
  induction js with
  | nil => intro a; rfl
  | cons j js ih =>
    intro a
    simp only [shuffleRec]
    rw [List.length_append, ih, List.length_take, List.length_drop,
      length_swapL]
    omega

lemma shuffleRec_perm {α : Type} : ∀ (js : List Nat) (a : List α),
    List.Perm (shuffleRec js a) a := by
  intro js
  induction js with
  | nil => intro a; exact List.Perm.refl a
  | cons j js ih =>
    intro a
    simp only [shuffleRec]
    refine List.Perm.trans (List.Perm.append_right _ (ih _)) ?_
    rw [List.take_append_drop]
    exact swapL_perm ..

lemma getElem_swapL_last {α : Type} {a : List α} {i j : Nat}
    (hi : i < a.length) (hj : j < a.length) (hl : i < (swapL a i j).length) :
    (swapL a i j)[i] = a[j] := by
  have h := getElem?_swapL hi hj i
  by_cases hc : i = j
  · subst hc
    rw [if_pos rfl, List.getElem?_eq_getElem hl, List.getElem?_eq_getElem hi] at h
    exact Option.some.inj h
  · rw [if_neg hc, if_pos rfl, List.getElem?_eq_getElem hl,
      List.getElem?_eq_getElem hj] at h
    exact Option.some.inj h

/-- Fisher-Yates is unbiased: on a duplicate-free list, every permutation is
reached by exactly one valid choice vector. -/
theorem shuffleRec_unbiased {α : Type} [DecidableEq α] :
    ∀ (n : Nat) (a : List α), a.length = n → 1 ≤ n → a.Nodup →
      ∀ p, List.Perm a p →
        ∃! js, ChoicesFor js n ∧ shuffleRec js a = p := by
  intro n
  induction n using Nat.strong_induction_on with
  | _ n ih =>
    intro a ha h1 hnd p hp
    rcases Nat.lt_or_ge n 2 with h2 | h2
    · have hn1 : n = 1 := by omega
      subst hn1
      obtain ⟨z, rfl⟩ : ∃ z, a = [z] := by
        cases a with
        | nil => simp at ha
        | cons y t =>
          cases t with
          | nil => exact ⟨y, rfl⟩
          | cons w t2 => simp at ha
      have hpx : p = [z] := (List.singleton_perm.mp hp).symm
      subst hpx
      refine ⟨[], ⟨by simp [ChoicesFor], rfl⟩, ?_⟩
      rintro js ⟨hjs, hsh⟩
      cases js with
      | nil => rfl
      | cons j js2 =>
        obtain ⟨habs, -, -⟩ := hjs
        omega
    · have hplen : p.length = n := by rw [← hp.length_eq, ha]
      have hxp : n - 1 < p.length := by omega
      obtain ⟨x, hxdef⟩ : ∃ x, p[n - 1] = x := ⟨_, rfl⟩
      have hxmem : x ∈ a := hp.mem_iff.mpr (hxdef ▸ List.getElem_mem hxp)
      have hj0lt : List.indexOf x a < a.length := List.indexOf_lt_length.mpr hxmem
      set j0 := List.indexOf x a with hj0
      have hj0a : a[j0] = x := List.getElem_indexOf hj0lt
      set b := swapL a (n - 1) j0 with hbdef
      have hblen : b.length = a.length := length_swapL ..
      have hbperm : List.Perm b a := swapL_perm ..
      have hbn : n - 1 < b.length := by omega
      have hblast : b[n - 1] = x := by
        show (swapL a (n - 1) j0)[n - 1] = x
        rw [getElem_swapL_last (by omega) (by omega) (by rw [length_swapL]; omega)]
        exact hj0a
      have hbdrop : b.drop (n - 1) = [x] := by
        rw [List.drop_eq_getElem_cons hbn, hblast]
        have he : n - 1 + 1 = n := by omega
        rw [he, List.drop_eq_nil_of_le (by omega)]
      have hpdrop : p.drop (n - 1) = [x] := by
        rw [List.drop_eq_getElem_cons hxp, hxdef]
        have he : n - 1 + 1 = n := by omega
        rw [he, List.drop_eq_nil_of_le (by omega)]
      have hbdecomp : b = b.take (n - 1) ++ [x] := by
        conv_lhs => rw [← List.take_append_drop (n - 1) b]
        rw [hbdrop]
      have hpdecomp : p = p.take (n - 1) ++ [x] := by
        conv_lhs => rw [← List.take_append_drop (n - 1) p]
        rw [hpdrop]
      have htperm : List.Perm (b.take (n - 1)) (p.take (n - 1)) := by
        have hba : List.Perm (b.take (n - 1) ++ [x]) (p.take (n - 1) ++ [x]) := by
          rw [← hbdecomp, ← hpdecomp]
          exact hbperm.trans hp
        exact (List.perm_append_right_iff _).mp hba
      have hbnd : b.Nodup := (hbperm.symm).nodup hnd
      have htnd : (b.take (n - 1)).Nodup := (List.take_sublist _ _).nodup hbnd
      have htlen : (b.take (n - 1)).length = n - 1 := by
        rw [List.length_take]; omega
      obtain ⟨js1, ⟨hjsC, hjsS⟩, huniq⟩ :=
        ih (n - 1) (by omega) (b.take (n - 1)) htlen (by omega) htnd
          (p.take (n - 1)) htperm
      have hsh0 : ∀ j js2, shuffleRec (j :: js2) a =
          shuffleRec js2 ((swapL a (n - 1) j).take (n - 1))
            ++ (swapL a (n - 1) j).drop (n - 1) := by
        intro j js2
        simp only [shuffleRec]
        rw [ha]
      refine ⟨j0 :: js1, ⟨⟨h2, by omega, hjsC⟩, ?_⟩, ?_⟩
      · rw [hsh0, ← hbdef, hjsS, hbdrop, ← hpdecomp]
      · rintro js ⟨hjsC2, hjsS2⟩
        cases js with
        | nil =>
          have : n ≤ 1 := hjsC2
          omega
        | cons j js2 =>
          obtain ⟨-, hjlt, hjsC3⟩ := hjsC2
          rw [hsh0] at hjsS2
          have hjlt2 : j < a.length := by omega
          have hclen : (swapL a (n - 1) j).length = a.length := length_swapL ..
          have hcn : n - 1 < (swapL a (n - 1) j).length := by omega
          have hcj : (swapL a (n - 1) j)[n - 1] = a[j] :=
            getElem_swapL_last (by omega) hjlt2 hcn
          have hcdrop : (swapL a (n - 1) j).drop (n - 1) = [a[j]] := by
            rw [List.drop_eq_getElem_cons hcn, hcj]
            have he : n - 1 + 1 = n := by omega
            rw [he, List.drop_eq_nil_of_le (by omega)]
          rw [hcdrop] at hjsS2
          have hlen2 :
              (shuffleRec js2 ((swapL a (n - 1) j).take (n - 1))).length = n - 1 := by
            rw [shuffleRec_length, List.length_take]; omega
          obtain ⟨hinj1, hinj2⟩ :=
            List.append_inj (hjsS2.trans hpdecomp)
              (by rw [hlen2, List.length_take]; omega)
          have hax : a[j] = x := by simpa using hinj2
          have hja : a[j] = a[j0] := by rw [hax, ← hj0a]
          have hjj0 : j = j0 := (hnd.getElem_inj_iff).mp hja
          subst hjj0
          have hjs1eq : js2 = js1 := by
            apply huniq
            exact ⟨hjsC3, hinj1⟩
          rw [hjs1eq]

/-- C3: `getRandomItems` returns the list itself when its length is at or
below the target count; otherwise it returns the `count`-prefix of a
Fisher-Yates shuffle of a copy, so the result has exactly `count` elements
drawn from the original with no position reused (a sub-permutation).  The
shuffle is a permutation of the input, equals `shuffleRec` on the choice
vector taken by the loop, and — on a duplicate-free list — reaches every
permutation by exactly one valid choice vector (unbiased uniformity).
Mutation cannot be expressed here: the embedding is pure, matching the
source's copy-then-shuffle (`[...array]`). -/
theorem getRandomItems_spec {α : Type} [DecidableEq α] (picks : Nat → Nat)
    (a : List α) (count : Nat) (hp : ∀ i, picks i ≤ i) :
    (a.length ≤ count → getRandomItems picks a count = a)
    ∧ (count < a.length →
        (getRandomItems picks a count).length = count
        ∧ getRandomItems picks a count = (shuffleJS picks a).take count
        ∧ List.Subperm (getRandomItems picks a count) a)
    ∧ List.Perm (shuffleJS picks a) a
    ∧ shuffleJS picks a = shuffleRec (choiceList picks (a.length - 1)) a
    ∧ (a.Nodup → 1 ≤ a.length → ∀ p, List.Perm a p →
        ∃! js, ChoicesFor js a.length ∧ shuffleRec js a = p) := by
  refine ⟨fun h => ?_, fun h => ⟨?_, ?_, ?_⟩, ?_, ?_, fun hnd h1 p hp2 => ?_⟩
  · unfold getRandomItems
    rw [if_pos h]
  · unfold getRandomItems
    rw [if_neg (by omega)]
    rw [List.length_take]
    unfold shuffleJS
    rw [length_fyLoop]
    omega
  · unfold getRandomItems
    rw [if_neg (by omega)]
  · unfold getRandomItems
    rw [if_neg (by omega)]
    exact ((List.take_sublist _ _).subperm).trans (fyLoop_perm picks _ a).subperm
  · exact fyLoop_perm picks _ a
  · cases ha : a with
    | nil => rfl
    | cons y t =>
      unfold shuffleJS
      exact fyLoop_eq_shuffleRec hp ((y :: t).length - 1) (y :: t) (by simp)
  · exact shuffleRec_unbiased a.length a rfl h1 hnd p hp2

theorem getRandomItems_spec_witness :
    getRandomItems (fun _ => 0) ([10, 20, 30] : List Nat) 5 = [10, 20, 30]
    ∧ (getRandomItems (fun _ => 0) ([10, 20, 30] : List Nat) 2).length = 2
    ∧ (∃! js, ChoicesFor js ([10, 20, 30] : List Nat).length
        ∧ shuffleRec js ([10, 20, 30] : List Nat) = [30, 10, 20]) := by
  have hpk : ∀ i, (fun _ => 0 : Nat → Nat) i ≤ i := fun i => Nat.zero_le i
  refine ⟨(getRandomItems_spec (fun _ => 0) [10, 20, 30] 5 hpk).1 (by decide),
    ((getRandomItems_spec (fun _ => 0) [10, 20, 30] 2 hpk).2.1 (by decide)).1,
    (getRandomItems_spec (fun _ => 0) [10, 20, 30] 2 hpk).2.2.2.2
      (by decide) (by decide) [30, 10, 20] (by decide)⟩

end WhatDay
